import Mathlib

/-!
Shallow embedding of the WebAssembly settings backends of
`src/corelib/io/qsettings_wasm.cpp`: the `window.localStorage`-backed
synchronous backend (`QWasmLocalStorageSettingsPrivate`) and the
IndexedDB-backed asynchronous backend (`QWasmIDBSettingsPrivate`).

`QString`/`QStringView` values are modelled by their character sequences
(`String`, reasoned about through `String.data`).  The browser
`localStorage` object is modelled as an association list of
(key, value) entries.  The IndexedDB backend is modelled as a state
machine driven by events: constructor and destructor calls, user calls
to `sync`/`clear`, and the four asynchronous completion callbacks.
-/

namespace QtWasmSettings

/-- `QStringView::length()` / `QString::length()`: number of characters. -/
def qLength (s : String) : Nat := s.data.length

/-- `QStringView::startsWith` (also used for `QString::startsWith`). -/
def qStartsWith (s pre : String) : Bool := pre.data.isPrefixOf s.data

/-- `QStringView::sliced(n)`: the suffix after the first `n` characters. -/
def qDrop (s : String) (n : Nat) : String := String.mk (s.data.drop n)

/-- `QString(name).replace("-", "--")` with a one-character pattern:
every separator character `'-'` is doubled. -/
def escapeSep (s : String) : String :=
  String.mk (s.data.flatMap fun c => if c = '-' then ['-', '-'] else [c])

/-- `keyNameFromPrefixedStorageName(prefix, prefixedStorageName)`: per the
source comment, "Return the key slice after m_keyPrefix, or an empty string
view if no match".  The no-match branch (`QStringView()`) and a match whose
remainder is empty both yield the empty string; every caller in the file
inspects the result only through `isEmpty`/`startsWith`/`sliced`. -/
def keyNameFromPrefixedStorageName (pfx prefixedStorageName : String) : String :=
  if qStartsWith prefixedStorageName pfx then qDrop prefixedStorageName (qLength pfx)
  else ""

/-- The browser `window.localStorage` object: ordered (key, value) entries.
`localStorage` keys are unique; `key i` enumerates the keys in order. -/
abbrev Store := List (String × String)

/-- `localStorage.getItem(k)`: value of the entry with key `k`, if any. -/
def getItem (st : Store) (k : String) : Option String :=
  (st.find? fun e => decide (e.1 = k)).map (·.2)

/-- `localStorage.setItem(k, v)`: overwrite the entry with key `k`, or
append a new entry. -/
def setItem (st : Store) (k v : String) : Store :=
  if st.any (fun e => decide (e.1 = k)) then
    st.map fun e => if e.1 = k then (k, v) else e
  else st ++ [(k, v)]

/-- `localStorage.removeItem(k)`: delete the entry with key `k`. -/
def removeItem (st : Store) (k : String) : Store :=
  st.filter fun e => decide (e.1 ≠ k)

/-- The `QSettings::Status` values this file uses. -/
inductive SettingsStatus where
  | NoError
  | AccessError
deriving DecidableEq

/-- `QSettings::Scope`. -/
inductive Scope where
  | UserScope
  | SystemScope
deriving DecidableEq

/-- Observable state of a `QWasmLocalStorageSettingsPrivate` set up by its
constructor: the instance status and the ordered list `m_keyPrefixes`. -/
structure LSBackend where
  status : SettingsStatus
  keyPrefixes : List String
deriving DecidableEq

/-- The `QWasmLocalStorageSettingsPrivate` constructor: an empty organization
sets `AccessError` and returns before any prefix is built; otherwise the
prefix list is built from the escaped organization and application names.
The base-class status starts as `NoError`. -/
def lsConstruct (scope : Scope) (organization application : String) : LSBackend :=
  if organization.data.isEmpty then { status := .AccessError, keyPrefixes := [] }
  else
    let escapedOrganization := escapeSep organization
    let escapedApplication := escapeSep application
    let pfx := "qt-v0-" ++ escapedOrganization ++ "-"
    let userPart :=
      if scope = .UserScope then
        (if escapedApplication.data.isEmpty then []
         else [pfx ++ escapedApplication ++ "-"])
          ++ [pfx ++ "all-apps-"]
      else []
    let sysAppPart :=
      if escapedApplication.data.isEmpty then []
      else [pfx ++ escapedApplication ++ "-" ++ "sys-tem" ++ "-"]
    { status := .NoError
      keyPrefixes := userPart ++ sysAppPart ++ [pfx ++ "all-apps" ++ "-" ++ "sys-tem" ++ "-"] }

/-- `QWasmLocalStorageSettingsPrivate::set`: writes
`m_keyPrefixes.first() + key -> variantToString(value)`.  `first()` requires
the list to be non-empty (guaranteed after a non-error construction);
modelled by `headD ""`. -/
def lsSet {Variant : Type} (variantToString : Variant → String) (b : LSBackend)
    (st : Store) (key : String) (value : Variant) : Store :=
  setItem st (b.keyPrefixes.headD "" ++ key) (variantToString value)

/-- The prefix loop of `QWasmLocalStorageSettingsPrivate::get`: return the
first hit, parsed; on a miss stop immediately unless `fallbacks` is set. -/
def lsGetGo {Variant : Type} (stringToVariant : String → Variant) (fallbacks : Bool)
    (st : Store) (key : String) : List String → Option Variant
  | [] => none
  | pfx :: rest =>
    match getItem st (pfx ++ key) with
    | some v => some (stringToVariant v)
    | none => if fallbacks then lsGetGo stringToVariant fallbacks st key rest else none

/-- `QWasmLocalStorageSettingsPrivate::get`. -/
def lsGet {Variant : Type} (stringToVariant : String → Variant) (fallbacks : Bool)
    (b : LSBackend) (st : Store) (key : String) : Option Variant :=
  lsGetGo stringToVariant fallbacks st key b.keyPrefixes

/-- `QWasmLocalStorageSettingsPrivate::remove`: collect
`m_keyPrefixes.first() + key` plus every stored key whose slice after the
first prefix is non-empty and starts with `key`, then delete the collected
keys in a second pass. -/
def lsRemove (b : LSBackend) (st : Store) (key : String) : Store :=
  let p0 := b.keyPrefixes.headD ""
  let removed := p0 ++ key
  let childKeys :=
    (st.map (·.1)).filter fun storedKeyWithPrefix =>
      let storedKey := keyNameFromPrefixedStorageName p0 storedKeyWithPrefix
      !(storedKey.data.isEmpty || !qStartsWith storedKey key)
  (removed :: childKeys).foldl removeItem st

/-- `QWasmLocalStorageSettingsPrivate::clear`: first enumerate all stored
keys, then delete those whose slice after the first prefix is non-empty. -/
def lsClear (b : LSBackend) (st : Store) : Store :=
  let keys := st.map (·.1)
  keys.foldl
    (fun acc k =>
      if !(keyNameFromPrefixedStorageName (b.keyPrefixes.headD "") k).data.isEmpty
      then removeItem acc k
      else acc)
    st

/-- Modelled from the spec: `QConfFileSettingsPrivate::fileName` is not part
of this file; per the spec it is a deterministic logical file path derived
from organization and application under the fixed sandbox root directory. -/
def confFileName (organization application : String) : String :=
  "/home/web_user/" ++ organization ++ "/" ++ application ++ ".conf"

/-- Per-instance fields of a `QWasmIDBSettingsPrivate`: `databaseName` (the
organization), `id` (the application) and the `QSettingsPrivate` status. -/
structure IDBInstanceState where
  databaseName : String
  id : String
  status : SettingsStatus
deriving DecidableEq

/-- Asynchronous requests issued to the IndexedDB primitive
(`emscripten_idb_async_exists` / `_load` / `_store` / `_delete`), tagged with
the issuing instance's identity and the database key (the file path). -/
inductive IDBRequest where
  | existsCheck (ptr : Nat) (path : String)
  | load (ptr : Nat) (path : String)
  | store (ptr : Nat) (path : String)
  | delete (ptr : Nat) (path : String)
deriving DecidableEq

/-- Issuing instance of a request. -/
def IDBRequest.ptrOf : IDBRequest → Nat
  | .existsCheck p _ => p
  | .load p _ => p
  | .store p _ => p
  | .delete p _ => p

/-- A request that mutates the IndexedDB primitive (a store or a delete). -/
def IDBRequest.isWrite : IDBRequest → Bool
  | .store _ _ => true
  | .delete _ _ => true
  | _ => false

/-- Process-wide state of the IndexedDB backend machinery:
`liveSettings` is the static registry of live instance identities,
`inst` maps every constructed identity to its fields,
`isReadReady` is the file-static readiness flag (`static bool isReadReady`),
`requests` records every asynchronous IndexedDB request issued so far, and
`localFiles` records paths written into the sandbox virtual filesystem. -/
structure IDBState where
  liveSettings : List Nat
  inst : List (Nat × IDBInstanceState)
  isReadReady : Bool
  requests : List IDBRequest
  localFiles : List String
deriving DecidableEq

/-- Initial process state: empty registry, `isReadReady = false`. -/
def initState : IDBState :=
  { liveSettings := [], inst := [], isReadReady := false, requests := [], localFiles := [] }

/-- Set the status stored for identity `ptr` (the effect of
`setStatus` on that instance). -/
def setInstStatus (l : List (Nat × IDBInstanceState)) (ptr : Nat)
    (st : SettingsStatus) : List (Nat × IDBInstanceState) :=
  l.map fun e => if e.1 = ptr then (e.1, { e.2 with status := st }) else e

/-- `QWasmIDBSettingsPrivate::get(void *userData)`: look the captured
identity up in `liveSettings`; a miss yields null (`none`), a hit yields the
instance. -/
def idbGet (s : IDBState) (ptr : Nat) : Option IDBInstanceState :=
  if s.liveSettings.contains ptr then (s.inst.find? fun e => decide (e.1 = ptr)).map (·.2)
  else none

/-- Status of the instance with identity `ptr`, if one was constructed. -/
def instStatus (s : IDBState) (ptr : Nat) : Option SettingsStatus :=
  (s.inst.find? fun e => decide (e.1 = ptr)).map (·.2.status)

/-- `QWasmIDBSettingsPrivate::setReady`: set the file-static `isReadReady`
flag, clear the instance status to `NoError` (the call to the base class
`initAccess` is external). -/
def setReady (s : IDBState) (ptr : Nat) : IDBState :=
  { s with isReadReady := true, inst := setInstStatus s.inst ptr .NoError }

/-- The readiness gate consulted by `initAccess`, `get` and `isWritable` of
any instance: the file-static `isReadReady` flag.  The instance identity is
a parameter only to name the instance being observed — the source reads the
same static flag for every instance. -/
def instGateOpen (s : IDBState) (_ptr : Nat) : Bool := s.isReadReady

/-- Events driving the IndexedDB backend state machine.  `callSync` and
`callClear` are user calls on a live instance (`fileOpens` tells whether
opening the local file for reading succeeded, which is decided by the
sandbox filesystem); `onCheck`/`onLoad`/`onError`/`onStore` are the
asynchronous completion callbacks; their `ptr` is the identity captured when
the request was issued. -/
inductive IDBEvent where
  | construct (ptr : Nat) (organization application : String)
  | destruct (ptr : Nat)
  | callSync (ptr : Nat) (fileOpens : Bool)
  | callClear (ptr : Nat)
  | onCheck (ptr : Nat) (fileExists : Bool)
  | onLoad (ptr : Nat) (fileOpens : Bool)
  | onError (ptr : Nat)
  | onStore (ptr : Nat)
deriving DecidableEq

/-- One step of the IndexedDB backend machinery, following the source:

* `construct`: push onto `liveSettings`, set status `AccessError`
  ("access error until sandbox gets loaded"), record organization and
  application, issue the asynchronous existence check.  There is no check of
  the organization string.
* `destruct`: `liveSettings.removeAll(this)`.
* `callSync` (`sync`/`flush`): after the external base-class sync, if the
  local file opens, issue an asynchronous store of its bytes.
* `callClear` (`clear`): after the external base-class clear, issue an
  asynchronous delete of the database entry.
* `onCheck`: registry miss → no effect; file exists → `loadLocal` issues an
  asynchronous load; file absent → `setReady`.
* `onLoad`: registry miss → no effect; if the local file opens for writing,
  write the loaded bytes there and `setReady`; else no effect.
* `onError`: registry miss → no effect; else `setStatus(AccessError)`.
* `onStore`: registry miss → no effect; else `setStatus(NoError)`.

A method call (`callSync`/`callClear`) is only meaningful on a live
instance; on a dead identity it is modelled as a no-op. -/
def step (s : IDBState) : IDBEvent → IDBState
  | .construct ptr organization application =>
    { s with
      liveSettings := s.liveSettings ++ [ptr]
      inst := s.inst ++ [(ptr, { databaseName := organization, id := application,
                                 status := .AccessError })]
      requests := s.requests ++ [.existsCheck ptr (confFileName organization application)] }
  | .destruct ptr =>
    { s with liveSettings := s.liveSettings.filter fun q => decide (q ≠ ptr) }
  | .callSync ptr fileOpens =>
    match idbGet s ptr with
    | none => s
    | some i =>
      if fileOpens then
        { s with requests := s.requests ++ [.store ptr (confFileName i.databaseName i.id)] }
      else s
  | .callClear ptr =>
    match idbGet s ptr with
    | none => s
    | some i =>
      { s with requests := s.requests ++ [.delete ptr (confFileName i.databaseName i.id)] }
  | .onCheck ptr fileExists =>
    match idbGet s ptr with
    | none => s
    | some i =>
      if fileExists then
        { s with requests := s.requests ++ [.load ptr (confFileName i.databaseName i.id)] }
      else setReady s ptr
  | .onLoad ptr fileOpens =>
    match idbGet s ptr with
    | none => s
    | some i =>
      if fileOpens then
        setReady { s with localFiles := s.localFiles ++ [confFileName i.databaseName i.id] } ptr
      else s
  | .onError ptr =>
    match idbGet s ptr with
    | none => s
    | some _ => { s with inst := setInstStatus s.inst ptr .AccessError }
  | .onStore ptr =>
    match idbGet s ptr with
    | none => s
    | some _ => { s with inst := setInstStatus s.inst ptr .NoError }

/-- Run a sequence of events from the initial process state. -/
def run (events : List IDBEvent) : IDBState := events.foldl step initState

/-- The write requests (stores and deletes) issued by instance `ptr`. -/
def physicalWrites (s : IDBState) (ptr : Nat) : List IDBRequest :=
  s.requests.filter fun r => r.isWrite && decide (r.ptrOf = ptr)

/-! ### Specification-side definitions

These follow the spec's words, to be compared with the definitions above. -/

/-- Spec side: the most specific applicable prefix for a configuration —
org+app when an application name is present, else the all-apps variant;
with the `sys-tem` tag outside user scope. -/
def mostSpecificPfx (scope : Scope) (organization application : String) : String :=
  let pfx := "qt-v0-" ++ escapeSep organization ++ "-"
  match scope with
  | .UserScope =>
    if (escapeSep application).data.isEmpty then pfx ++ "all-apps-"
    else pfx ++ escapeSep application ++ "-"
  | .SystemScope =>
    if (escapeSep application).data.isEmpty then pfx ++ "all-apps" ++ "-" ++ "sys-tem" ++ "-"
    else pfx ++ escapeSep application ++ "-" ++ "sys-tem" ++ "-"

/-- Spec side: `get` returns the first hit over the prefix list in order;
with fallbacks disabled only the first prefix is consulted. -/
def lsGetSpec {Variant : Type} (stringToVariant : String → Variant) (fallbacks : Bool)
    (b : LSBackend) (st : Store) (key : String) : Option Variant :=
  match b.keyPrefixes with
  | [] => none
  | p0 :: rest =>
    if fallbacks then
      (((p0 :: rest).filterMap fun pfx => getItem st (pfx ++ key)).head?).map stringToVariant
    else (getItem st (p0 ++ key)).map stringToVariant

/-- Spec side: `k` is a strict (proper) extension of the storage prefix `p`:
it starts with `p` and is longer than `p`. -/
def isStrictExtension (p k : String) : Bool :=
  qStartsWith k p && decide (qLength p < qLength k)

/-! ### Helper lemmas -/

theorem data_append (s t : String) : (s ++ t).data = s.data ++ t.data := by
  cases s; cases t; rfl

theorem string_eq_iff_data {s t : String} : s = t ↔ s.data = t.data :=
  ⟨fun h => h ▸ rfl, String.ext⟩

theorem qStartsWith_iff {s p : String} : qStartsWith s p = true ↔ ∃ r, s = p ++ r := by
  rw [qStartsWith, List.isPrefixOf_iff_prefix]
  constructor
  · rintro ⟨t, ht⟩
    exact ⟨String.mk t, string_eq_iff_data.mpr (by rw [data_append]; exact ht.symm)⟩
  · rintro ⟨r, rfl⟩
    exact ⟨r.data, (data_append p r).symm⟩

theorem qDrop_append (p r : String) : qDrop (p ++ r) (qLength p) = r := by
  apply string_eq_iff_data.mpr
  simp [qDrop, qLength, data_append]

theorem keyName_append (p r : String) : keyNameFromPrefixedStorageName p (p ++ r) = r := by
  rw [keyNameFromPrefixedStorageName, if_pos, qDrop_append]
  exact qStartsWith_iff.mpr ⟨r, rfl⟩

theorem keyName_no_match {p s : String} (h : qStartsWith s p = false) :
    keyNameFromPrefixedStorageName p s = "" := by
  rw [keyNameFromPrefixedStorageName, if_neg]
  simp [h]

theorem append_left_cancel {p r r' : String} (h : p ++ r = p ++ r') : r = r' := by
  apply string_eq_iff_data.mpr
  have := string_eq_iff_data.mp h
  rw [data_append, data_append] at this
  exact List.append_cancel_left this

theorem data_isEmpty_false_iff (s : String) : s.data.isEmpty = false ↔ s ≠ "" := by
  rw [List.isEmpty_eq_false, Ne, Ne, string_eq_iff_data]

theorem escapeSep_data_isEmpty (s : String) :
    (escapeSep s).data.isEmpty = s.data.isEmpty := by
  cases h : s.data with
  | nil => simp [escapeSep, h]
  | cons c cs =>
    simp only [escapeSep, h, List.flatMap_cons, List.isEmpty_cons]
    split <;> simp

theorem escapeSep_ne_empty {s : String} (h : s ≠ "") : (escapeSep s).data.isEmpty = false := by
  rw [escapeSep_data_isEmpty]
  exact (data_isEmpty_false_iff s).mpr h

theorem append_empty (s : String) : s ++ "" = s := by
  apply string_eq_iff_data.mpr
  rw [data_append, show ("" : String).data = [] from rfl, List.append_nil]

theorem lsConstruct_head (scope : Scope) (organization application : String)
    (h : organization ≠ "") :
    ∃ rest, (lsConstruct scope organization application).keyPrefixes
      = mostSpecificPfx scope organization application :: rest := by
  have horg' : organization.data.isEmpty = false := (data_isEmpty_false_iff organization).mpr h
  cases scope <;> cases happ : (escapeSep application).data.isEmpty <;>
      simp [lsConstruct, mostSpecificPfx, horg', happ]

theorem mem_removeItem {st : Store} {k : String} {e : String × String} :
    e ∈ removeItem st k ↔ e ∈ st ∧ e.1 ≠ k := by
  simp [removeItem, List.mem_filter]

theorem mem_foldl_removeItem (ks : List String) (st : Store) (e : String × String) :
    e ∈ ks.foldl removeItem st ↔ e ∈ st ∧ e.1 ∉ ks := by
  induction ks generalizing st with
  | nil => simp
  | cons k ks ih =>
    rw [List.foldl_cons, ih, mem_removeItem]
    simp only [List.mem_cons]
    tauto

theorem getItem_replace (st : Store) (k v : String)
    (hany : st.any (fun e => decide (e.1 = k)) = true) :
    getItem (st.map fun e => if e.1 = k then (k, v) else e) k = some v := by
  induction st with
  | nil => simp at hany
  | cons a st ih =>
    by_cases h : a.1 = k
    · simp [getItem, List.find?_cons, h]
    · rw [List.any_cons] at hany
      have hany' : st.any (fun e => decide (e.1 = k)) = true := by simpa [h] using hany
      simpa [getItem, List.find?_cons, h] using ih hany'

theorem getItem_append_self (st : Store) (k v : String)
    (hnone : st.any (fun e => decide (e.1 = k)) = false) :
    getItem (st ++ [(k, v)]) k = some v := by
  induction st with
  | nil => simp [getItem, List.find?_cons]
  | cons a st ih =>
    rw [List.any_cons, Bool.or_eq_false_iff] at hnone
    have h : ¬(a.1 = k) := by simpa using hnone.1
    simpa [getItem, List.find?_cons, h] using ih hnone.2

theorem getItem_setItem_self (st : Store) (k v : String) :
    getItem (setItem st k v) k = some v := by
  rw [setItem]
  cases hany : st.any (fun e => decide (e.1 = k)) with
  | true => rw [if_pos rfl]; exact getItem_replace st k v hany
  | false =>
    rw [if_neg Bool.false_ne_true]
    exact getItem_append_self st k v hany

theorem mem_lsRemove_iff (b : LSBackend) (st : Store) (key : String) (e : String × String) :
    e ∈ lsRemove b st key ↔
      e ∈ st ∧ ¬(e.1 = b.keyPrefixes.headD "" ++ key ∨
        ((keyNameFromPrefixedStorageName (b.keyPrefixes.headD "") e.1).data.isEmpty = false ∧
         qStartsWith (keyNameFromPrefixedStorageName (b.keyPrefixes.headD "") e.1) key = true)) := by
  simp only [lsRemove]
  rw [mem_foldl_removeItem]
  simp only [List.mem_cons]
  constructor
  · rintro ⟨he, hnot⟩
    refine ⟨he, ?_⟩
    rintro (h1 | ⟨h2, h3⟩)
    · exact hnot (Or.inl h1)
    · refine hnot (Or.inr (List.mem_filter.mpr ⟨List.mem_map.mpr ⟨e, he, rfl⟩, ?_⟩))
      simp only [h2, h3]
      decide
  · rintro ⟨he, hnot⟩
    refine ⟨he, ?_⟩
    rintro (h1 | h2)
    · exact hnot (Or.inl h1)
    · have hcond := (List.mem_filter.mp h2).2
      refine hnot (Or.inr ?_)
      simpa using hcond

theorem removeCond_iff (p0 key k : String) :
    ((keyNameFromPrefixedStorageName p0 k).data.isEmpty = false ∧
     qStartsWith (keyNameFromPrefixedStorageName p0 k) key = true)
      ↔ ∃ r, k = p0 ++ r ∧ r ≠ "" ∧ qStartsWith r key = true := by
  cases hsw : qStartsWith k p0 with
  | false =>
    rw [keyName_no_match hsw]
    constructor
    · rintro ⟨h, _⟩
      simp [show ("" : String).data = [] from rfl] at h
    · rintro ⟨r, rfl, _, _⟩
      have htrue : qStartsWith (p0 ++ r) p0 = true := qStartsWith_iff.mpr ⟨r, rfl⟩
      rw [htrue] at hsw
      exact absurd hsw (by decide)
  | true =>
    obtain ⟨r, rfl⟩ := qStartsWith_iff.mp hsw
    rw [keyName_append]
    constructor
    · rintro ⟨h1, h2⟩
      exact ⟨r, rfl, (data_isEmpty_false_iff r).mp h1, h2⟩
    · rintro ⟨r', hr', hne, hsw'⟩
      obtain rfl := append_left_cancel hr'
      exact ⟨(data_isEmpty_false_iff r).mpr hne, hsw'⟩

theorem keyName_isEmpty_eq (p k : String) :
    (keyNameFromPrefixedStorageName p k).data.isEmpty = !(isStrictExtension p k) := by
  cases hsw : qStartsWith k p with
  | false =>
    rw [keyName_no_match hsw]
    simp [isStrictExtension, hsw, show ("" : String).data = [] from rfl]
  | true =>
    obtain ⟨r, rfl⟩ := qStartsWith_iff.mp hsw
    rw [keyName_append]
    simp only [isStrictExtension, hsw, Bool.true_and]
    rw [qLength, qLength, data_append, List.length_append]
    cases hr : r.data with
    | nil => simp [hr]
    | cons c cs => simp [hr]

theorem foldl_guarded_removeItem (c : String → Bool) (ks : List String) (st : Store) :
    ks.foldl (fun acc k => if c k then removeItem acc k else acc) st
      = (ks.filter c).foldl removeItem st := by
  induction ks generalizing st with
  | nil => rfl
  | cons k ks ih =>
    rw [List.foldl_cons, List.filter_cons]
    by_cases h : c k = true
    · rw [if_pos h, if_pos h, List.foldl_cons, ih]
    · rw [if_neg h, if_neg h, ih]

theorem mem_lsClear_iff (b : LSBackend) (st : Store) (e : String × String) :
    e ∈ lsClear b st ↔ e ∈ st ∧
      (keyNameFromPrefixedStorageName (b.keyPrefixes.headD "") e.1).data.isEmpty = true := by
  simp only [lsClear]
  rw [foldl_guarded_removeItem, mem_foldl_removeItem]
  constructor
  · rintro ⟨he, hnot⟩
    refine ⟨he, ?_⟩
    by_contra hc
    have hfalse : (keyNameFromPrefixedStorageName (b.keyPrefixes.headD "") e.1).data.isEmpty
        = false := by
      cases hb : (keyNameFromPrefixedStorageName (b.keyPrefixes.headD "") e.1).data.isEmpty
      · rfl
      · exact absurd hb hc
    refine hnot (List.mem_filter.mpr ⟨List.mem_map.mpr ⟨e, he, rfl⟩, ?_⟩)
    simp only [hfalse]
    decide
  · rintro ⟨he, hemp⟩
    refine ⟨he, fun hmem => ?_⟩
    have hcond := (List.mem_filter.mp hmem).2
    simp only [hemp] at hcond
    exact absurd hcond (by decide)

theorem lsGetGo_true {Variant : Type} (stringToVariant : String → Variant) (st : Store)
    (key : String) (ps : List String) :
    lsGetGo stringToVariant true st key ps
      = ((ps.filterMap fun pfx => getItem st (pfx ++ key)).head?).map stringToVariant := by
  induction ps with
  | nil => rfl
  | cons p ps ih =>
    simp only [lsGetGo, List.filterMap_cons]
    cases h : getItem st (p ++ key) with
    | some v => simp
    | none => simpa using ih

theorem find?_setInstStatus (l : List (Nat × IDBInstanceState)) (ptr : Nat)
    (st : SettingsStatus) :
    (setInstStatus l ptr st).find? (fun e => decide (e.1 = ptr))
      = (l.find? fun e => decide (e.1 = ptr)).map fun e => (e.1, { e.2 with status := st }) := by
  induction l with
  | nil => rfl
  | cons a l ih =>
    by_cases h : a.1 = ptr
    · simp [setInstStatus, List.find?_cons, h]
    · simp only [setInstStatus] at ih ⊢
      simp [List.find?_cons, h, ih]

theorem step_isReadReady_mono (s : IDBState) (e : IDBEvent)
    (h : s.isReadReady = true) : (step s e).isReadReady = true := by
  cases e <;> simp only [step] <;> (try split) <;> (try split) <;> simp_all [setReady]

theorem foldl_step_isReadReady_mono (events : List IDBEvent) (s : IDBState)
    (h : s.isReadReady = true) : (events.foldl step s).isReadReady = true := by
  induction events generalizing s with
  | nil => exact h
  | cons e evs ih => exact ih _ (step_isReadReady_mono s e h)

theorem instStatus_construct (s : IDBState) (ptr : Nat) (org app : String)
    (h : s.inst.find? (fun e => decide (e.1 = ptr)) = none) :
    instStatus (step s (.construct ptr org app)) ptr = some .AccessError := by
  simp only [step, instStatus, List.find?_append, h, Option.none_or]
  simp [List.find?_cons]

/-! ### Claim theorems -/

/-- Claim C1 counterexample: the claim says a newly constructed second
instance starts Unready even if a first instance already reached Ready.  In
the code the readiness gate is the file-static `isReadReady` flag shared by
all instances: after instance 1 reaches Ready (existence check reports the
file absent), the gate observed by the freshly constructed instance 2 is
already open. -/
theorem C1_counterexample_gate_shared :
    instGateOpen (run [.construct 1 "OrgA" "AppA", .onCheck 1 false,
      .construct 2 "OrgB" "AppB"]) 2 = true := by
  decide

/-- Claim C1 (amended): the readiness gate of the transactional backend is a
single process-global flag shared by every instance, not per-instance state;
it is promoted monotonically (no step of the machine ever resets it), so the
observable gate never regresses from Ready; but every instance observes the
same gate. -/
theorem C1_readiness_global_monotone :
    ∀ (s : IDBState) (events : List IDBEvent),
      (s.isReadReady = true → (events.foldl step s).isReadReady = true) ∧
      ∀ p q : Nat, instGateOpen s p = instGateOpen s q := by
  intro s events
  exact ⟨foldl_step_isReadReady_mono events s, fun _ _ => rfl⟩

/-- Witness for the amended C1 theorem at a concrete ready state and a
concrete later event sequence. -/
theorem C1_readiness_global_monotone_witness :
    (([IDBEvent.destruct 1, .construct 2 "OrgB" "AppB", .onError 2].foldl step
        (run [.construct 1 "OrgA" "AppA", .onCheck 1 false])).isReadReady = true) ∧
      instGateOpen (run [.construct 1 "OrgA" "AppA", .onCheck 1 false]) 1
        = instGateOpen (run [.construct 1 "OrgA" "AppA", .onCheck 1 false]) 2 :=
  ⟨(C1_readiness_global_monotone (run [.construct 1 "OrgA" "AppA", .onCheck 1 false])
      [IDBEvent.destruct 1, .construct 2 "OrgB" "AppB", .onError 2]).1 (by decide),
   (C1_readiness_global_monotone (run [.construct 1 "OrgA" "AppA", .onCheck 1 false])
      []).2 1 2⟩

/-- Claim C2 counterexample: the claim says an error callback permanently
sets the status to AccessError for that instance.  In the code a later
`sync` issues a store whose success callback (`_onStore`) sets the status
back to `NoError` on the very same instance. -/
theorem C2_counterexample_status_resets :
    instStatus (run [.construct 1 "Org" "App", .onError 1]) 1 = some .AccessError ∧
      instStatus (run [.construct 1 "Org" "App", .onError 1, .callSync 1 true,
        .onStore 1]) 1 = some .NoError := by
  decide

/-- Claim C2 (amended): an error callback on a live instance sets its status
to `AccessError`, but the error is not absorbing: a later successful store
or delete completion (`_onStore`) on the same instance resets the status to
`NoError`; constructing a new instance is not the only recovery. -/
theorem C2_error_then_store_resets :
    ∀ (s : IDBState) (ptr : Nat) (st0 : SettingsStatus),
      s.liveSettings.contains ptr = true → instStatus s ptr = some st0 →
      instStatus (step s (.onError ptr)) ptr = some .AccessError ∧
      instStatus (step (step s (.onError ptr)) (.onStore ptr)) ptr = some .NoError := by
  intro s ptr st0 hlive hstat
  obtain ⟨en, hfind⟩ : ∃ e, s.inst.find? (fun e => decide (e.1 = ptr)) = some e := by
    rcases h : s.inst.find? (fun e => decide (e.1 = ptr)) with _ | e
    · rw [instStatus, h] at hstat; cases hstat
    · exact ⟨e, h⟩
  have hget : idbGet s ptr = some en.2 := by
    rw [idbGet, if_pos hlive, hfind]; rfl
  have h1 : step s (.onError ptr) = { s with inst := setInstStatus s.inst ptr .AccessError } := by
    simp only [step, hget]
  have hfind1 : (setInstStatus s.inst ptr .AccessError).find? (fun e => decide (e.1 = ptr))
      = some (en.1, { en.2 with status := .AccessError }) := by
    rw [find?_setInstStatus, hfind]
    rfl
  have hstat1 : instStatus (step s (.onError ptr)) ptr = some .AccessError := by
    rw [h1, instStatus]
    show ((setInstStatus s.inst ptr .AccessError).find?
        (fun e => decide (e.1 = ptr))).map (·.2.status) = some .AccessError
    rw [hfind1]
    rfl
  refine ⟨hstat1, ?_⟩
  have hlive1 : ({ s with inst := setInstStatus s.inst ptr .AccessError }
      : IDBState).liveSettings.contains ptr = true := hlive
  have hget1 : idbGet { s with inst := setInstStatus s.inst ptr .AccessError } ptr
      = some { en.2 with status := .AccessError } := by
    rw [idbGet, if_pos hlive1]
    show ((setInstStatus s.inst ptr .AccessError).find?
        (fun e => decide (e.1 = ptr))).map (·.2) = _
    rw [hfind1]
    rfl
  have h2 : step { s with inst := setInstStatus s.inst ptr .AccessError } (.onStore ptr)
      = { s with inst := setInstStatus (setInstStatus s.inst ptr .AccessError) ptr .NoError } := by
    simp only [step, hget1]
  rw [h1, h2, instStatus]
  show ((setInstStatus (setInstStatus s.inst ptr .AccessError) ptr .NoError).find?
      (fun e => decide (e.1 = ptr))).map (·.2.status) = some .NoError
  rw [find?_setInstStatus, hfind1]
  rfl

/-- Witness for the amended C2 theorem at a concrete freshly constructed
instance. -/
theorem C2_error_then_store_resets_witness :
    instStatus (step (run [.construct 1 "Org" "App"]) (.onError 1)) 1 = some .AccessError ∧
      instStatus (step (step (run [.construct 1 "Org" "App"]) (.onError 1)) (.onStore 1)) 1
        = some .NoError :=
  C2_error_then_store_resets (run [.construct 1 "Org" "App"]) 1 .AccessError
    (by decide) (by decide)

/-- Claim C3: every asynchronous completion handler (`_onCheck`, `_onLoad`,
`_onError`, `_onStore`) first looks its captured identity up in the
process-wide `liveSettings` registry; on a miss it returns with no state
change whatsoever, so destroying the instance before a completion fires
produces no observable effect. -/
theorem C3_registry_miss_no_effect :
    ∀ (s : IDBState) (ptr : Nat), s.liveSettings.contains ptr = false →
      ∀ (fileExists fileOpens : Bool),
        step s (.onCheck ptr fileExists) = s ∧ step s (.onLoad ptr fileOpens) = s ∧
        step s (.onError ptr) = s ∧ step s (.onStore ptr) = s := by
  intro s ptr h fe fo
  have hget : idbGet s ptr = none := by
    rw [idbGet, if_neg (by rw [h]; exact Bool.false_ne_true)]
  refine ⟨?_, ?_, ?_, ?_⟩ <;> simp only [step, hget]

/-- Witness for C3: a request is issued at construction, the instance is
destroyed, and then every completion callback for its identity is a no-op on
the resulting state. -/
theorem C3_registry_miss_no_effect_witness :
    step (run [.construct 1 "Org" "App", .destruct 1]) (.onCheck 1 true)
        = run [.construct 1 "Org" "App", .destruct 1] ∧
      step (run [.construct 1 "Org" "App", .destruct 1]) (.onLoad 1 false)
        = run [.construct 1 "Org" "App", .destruct 1] ∧
      step (run [.construct 1 "Org" "App", .destruct 1]) (.onError 1)
        = run [.construct 1 "Org" "App", .destruct 1] ∧
      step (run [.construct 1 "Org" "App", .destruct 1]) (.onStore 1)
        = run [.construct 1 "Org" "App", .destruct 1] :=
  C3_registry_miss_no_effect (run [.construct 1 "Org" "App", .destruct 1]) 1
    (by decide) true false

/-- Claim C9 counterexample: the claim says an empty organization makes the
status AccessError immediately and no physical write ever occurs through
that instance.  The IndexedDB backend never checks the organization: with an
empty organization the existence check's "absent" completion opens the gate
and clears the status, and a subsequent `sync` issues a physical store
request. -/
theorem C9_counterexample_idb_empty_org_writes :
    physicalWrites (run [.construct 1 "" "App", .onCheck 1 false, .callSync 1 true]) 1
        = [.store 1 (confFileName "" "App")] ∧
      instStatus (run [.construct 1 "" "App", .onCheck 1 false, .callSync 1 true]) 1
        = some .NoError := by
  decide

/-- Claim C9 (amended): the synchronous backend's constructor with an empty
organization sets `AccessError` and builds no prefixes (it returns before
touching storage); the IndexedDB backend's constructor sets `AccessError`
for every organization, empty included, but performs no empty-organization
check, so later readiness can clear the error and physical writes can
occur. -/
theorem C9_empty_org_construction_status :
    ∀ (scope : Scope) (application : String) (s : IDBState) (ptr : Nat)
      (organization app2 : String),
      ((lsConstruct scope "" application).status = .AccessError ∧
        (lsConstruct scope "" application).keyPrefixes = []) ∧
      (s.inst.find? (fun e => decide (e.1 = ptr)) = none →
        instStatus (step s (.construct ptr organization app2)) ptr = some .AccessError) := by
  intro scope app s ptr org app2
  exact ⟨⟨rfl, rfl⟩, fun h => instStatus_construct s ptr org app2 h⟩

/-- Witness for the amended C9 theorem at concrete inputs. -/
theorem C9_empty_org_construction_status_witness :
    (lsConstruct .UserScope "" "Tool").status = .AccessError ∧
      instStatus (step initState (.construct 7 "" "Tool")) 7 = some .AccessError :=
  ⟨(C9_empty_org_construction_status .UserScope "Tool" initState 7 "" "Tool").1.1,
   (C9_empty_org_construction_status .UserScope "Tool" initState 7 "" "Tool").2 (by decide)⟩

/-- Claim C4 counterexample: the claim says that beyond the exact entry,
`remove(key)` deletes exactly the strict descendants of `key` in the
hierarchical namespace, and not arbitrary string extensions.  The code tests
`storedKey.startsWith(key)`, so removing `"a/b"` also deletes the sibling
key `"a/bc"`, which is not a child path under `"a/b"`. -/
theorem C4_counterexample_sibling_deleted :
    lsRemove (lsConstruct .UserScope "Org" "App") [("qt-v0-Org-App-a/bc", "2")] "a/b" = [] := by
  decide

/-- Claim C4 (amended): `remove(key)` deletes the exact entry under
`prefix[0] + key` together with every stored entry whose key after
stripping `prefix[0]` is non-empty and has `key` as a string prefix (any
string extension, not only hierarchical descendants), collecting first and
deleting second; every other entry survives. -/
theorem C4_remove_deletes_extensions :
    ∀ (b : LSBackend) (st : Store) (key : String) (e : String × String),
      e ∈ lsRemove b st key ↔
        e ∈ st ∧ ¬(e.1 = b.keyPrefixes.headD "" ++ key ∨
          ∃ r, e.1 = b.keyPrefixes.headD "" ++ r ∧ r ≠ "" ∧ qStartsWith r key = true) := by
  intro b st key e
  rw [mem_lsRemove_iff, removeCond_iff]

/-- Claim C5: `get(key)` iterates the prefix list in order and returns the
parsed value of the first `prefix + key` entry present; with fallbacks
disabled only the first prefix is consulted and a miss there is immediately
absent; with no hit anywhere the result is absent. -/
theorem C5_get_first_hit_with_fallbacks :
    ∀ (Variant : Type) (stringToVariant : String → Variant) (fallbacks : Bool)
      (b : LSBackend) (st : Store) (key : String),
      lsGet stringToVariant fallbacks b st key = lsGetSpec stringToVariant fallbacks b st key := by
  intro V parse fb b st key
  rw [lsGet, lsGetSpec]
  cases hps : b.keyPrefixes with
  | nil => rfl
  | cons p0 rest =>
    cases fb with
    | true => exact lsGetGo_true parse st key (p0 :: rest)
    | false =>
      simp only [lsGetGo]
      cases h : getItem st (p0 ++ key) <;> simp

/-- Claim C6 counterexample: the claim says the user-scope prefix list is
exactly the two non-`sys-tem` prefixes and the system-scope list adds the
`sys-tem` variants to them.  The code appends the `sys-tem` variants in
user scope as well (four entries), and omits the non-`sys-tem` entries in
system scope (two entries). -/
theorem C6_counterexample_scope_lists :
    (lsConstruct .UserScope "Acme" "Tool").keyPrefixes
        = ["qt-v0-Acme-Tool-", "qt-v0-Acme-all-apps-", "qt-v0-Acme-Tool-sys-tem-",
           "qt-v0-Acme-all-apps-sys-tem-"] ∧
      (lsConstruct .SystemScope "Acme" "Tool").keyPrefixes
        = ["qt-v0-Acme-Tool-sys-tem-", "qt-v0-Acme-all-apps-sys-tem-"] := by
  decide

/-- Claim C6 (amended): with non-empty organization and application names,
user scope builds the four-element prefix list org+app, org+all-apps,
org+app+sys-tem, org+all-apps+sys-tem, in that order; system scope builds
only the two `sys-tem` entries; escaping doubles every separator character;
and `set` writes only under the first prefix. -/
theorem C6_prefix_lists :
    ∀ (Variant : Type) (variantToString : Variant → String)
      (organization application : String),
      organization ≠ "" → application ≠ "" →
      (lsConstruct .UserScope organization application).keyPrefixes
          = [("qt-v0-" ++ escapeSep organization ++ "-") ++ escapeSep application ++ "-",
             ("qt-v0-" ++ escapeSep organization ++ "-") ++ "all-apps-",
             ("qt-v0-" ++ escapeSep organization ++ "-") ++ escapeSep application
               ++ "-" ++ "sys-tem" ++ "-",
             ("qt-v0-" ++ escapeSep organization ++ "-") ++ "all-apps" ++ "-" ++ "sys-tem" ++ "-"] ∧
      (lsConstruct .SystemScope organization application).keyPrefixes
          = [("qt-v0-" ++ escapeSep organization ++ "-") ++ escapeSep application
               ++ "-" ++ "sys-tem" ++ "-",
             ("qt-v0-" ++ escapeSep organization ++ "-") ++ "all-apps" ++ "-" ++ "sys-tem" ++ "-"] ∧
      ∀ (st : Store) (key : String) (value : Variant),
        lsSet variantToString (lsConstruct .UserScope organization application) st key value
          = setItem st
              ((("qt-v0-" ++ escapeSep organization ++ "-") ++ escapeSep application ++ "-") ++ key)
              (variantToString value) := by
  intro V render org app horg happ
  have horg' : org.data.isEmpty = false := (data_isEmpty_false_iff org).mpr horg
  have happ' : (escapeSep app).data.isEmpty = false := escapeSep_ne_empty happ
  refine ⟨?_, ?_, ?_⟩ <;> simp [lsConstruct, lsSet, horg', happ']

/-- Witness for the amended C6 theorem at concrete names. -/
theorem C6_prefix_lists_witness :
    (lsConstruct .UserScope "Acme" "Tool").keyPrefixes
        = [("qt-v0-" ++ escapeSep "Acme" ++ "-") ++ escapeSep "Tool" ++ "-",
           ("qt-v0-" ++ escapeSep "Acme" ++ "-") ++ "all-apps-",
           ("qt-v0-" ++ escapeSep "Acme" ++ "-") ++ escapeSep "Tool" ++ "-" ++ "sys-tem" ++ "-",
           ("qt-v0-" ++ escapeSep "Acme" ++ "-") ++ "all-apps" ++ "-" ++ "sys-tem" ++ "-"] ∧
      lsSet (fun s : String => s) (lsConstruct .UserScope "Acme" "Tool") [] "x" "1"
        = setItem []
            ((("qt-v0-" ++ escapeSep "Acme" ++ "-") ++ escapeSep "Tool" ++ "-") ++ "x") "1" :=
  ⟨(C6_prefix_lists String (fun s => s) "Acme" "Tool" (by decide) (by decide)).1,
   (C6_prefix_lists String (fun s => s) "Acme" "Tool" (by decide) (by decide)).2.2 [] "x" "1"⟩

/-- Claim C7: with a non-empty organization, writing a key through the
synchronous backend and reading it back returns the written value after the
render/parse round trip, and the prefix list is non-empty with its first
element the most specific applicable prefix. -/
theorem C7_set_get_round_trip :
    ∀ (Variant : Type) (variantToString : Variant → String)
      (stringToVariant : String → Variant) (scope : Scope)
      (organization application : String), organization ≠ "" →
      ∀ (fallbacks : Bool) (st : Store) (key : String) (value : Variant),
        lsGet stringToVariant fallbacks (lsConstruct scope organization application)
            (lsSet variantToString (lsConstruct scope organization application) st key value)
            key
          = some (stringToVariant (variantToString value)) ∧
        (lsConstruct scope organization application).keyPrefixes ≠ [] ∧
        (lsConstruct scope organization application).keyPrefixes.headD ""
          = mostSpecificPfx scope organization application := by
  intro V render parse scope org app horg fb st key v
  obtain ⟨rest, hps⟩ := lsConstruct_head scope org app horg
  refine ⟨?_, by simp [hps], by simp [hps]⟩
  rw [lsGet, lsSet, hps]
  simp only [List.headD_cons, lsGetGo, getItem_setItem_self]

/-- Witness for C7 at concrete names, key and value. -/
theorem C7_set_get_round_trip_witness :
    lsGet (fun s : String => s) true (lsConstruct .UserScope "Acme" "Tool")
        (lsSet (fun s : String => s) (lsConstruct .UserScope "Acme" "Tool") [] "x" "1") "x"
      = some "1" ∧
      (lsConstruct .UserScope "Acme" "Tool").keyPrefixes ≠ [] ∧
      (lsConstruct .UserScope "Acme" "Tool").keyPrefixes.headD ""
        = mostSpecificPfx .UserScope "Acme" "Tool" :=
  C7_set_get_round_trip String (fun s => s) (fun s => s) .UserScope "Acme" "Tool"
    (by decide) true [] "x" "1"

/-- Claim C8 counterexample: the claim says the "no match" signal is
distinguishable from a successful match with empty remainder.  In the code
both are the same empty result (the source comment itself says "or an empty
string view if no match"): stripping the prefix from a stored key equal to
the prefix yields exactly what stripping it from a non-matching key
yields. -/
theorem C8_counterexample_empty_collision :
    keyNameFromPrefixedStorageName "qt-v0-Acme-" "qt-v0-Acme-"
        = keyNameFromPrefixedStorageName "qt-v0-Acme-" "unrelated" ∧
      keyNameFromPrefixedStorageName "qt-v0-Acme-" "qt-v0-Acme-" = "" ∧
      qStartsWith "qt-v0-Acme-" "qt-v0-Acme-" = true ∧
      qStartsWith "unrelated" "qt-v0-Acme-" = false := by
  decide

/-- Claim C8 (amended): the strip helper returns the remainder of the
stored key after the prefix whenever the stored key starts with the prefix
(`prefix ++ remainder` reassembles the stored key), and the empty string
when it does not; an exact match (stored key equal to the prefix) also
yields the empty string, so it is indistinguishable from no match. -/
theorem C8_strip_remainder_or_empty :
    ∀ (pfx storedKey : String),
      (qStartsWith storedKey pfx = true →
        pfx ++ keyNameFromPrefixedStorageName pfx storedKey = storedKey) ∧
      (qStartsWith storedKey pfx = false →
        keyNameFromPrefixedStorageName pfx storedKey = "") ∧
      keyNameFromPrefixedStorageName pfx pfx = "" := by
  intro p s
  refine ⟨fun h => ?_, fun h => keyName_no_match h, ?_⟩
  · obtain ⟨r, rfl⟩ := qStartsWith_iff.mp h
    rw [keyName_append]
  · have h := keyName_append p ""
    rw [append_empty] at h
    exact h

/-- Witness for the amended C8 theorem at concrete keys. -/
theorem C8_strip_remainder_or_empty_witness :
    "qt-v0-Acme-" ++ keyNameFromPrefixedStorageName "qt-v0-Acme-" "qt-v0-Acme-Tool-x"
        = "qt-v0-Acme-Tool-x" ∧
      keyNameFromPrefixedStorageName "qt-v0-Acme-" "zzz" = "" :=
  ⟨(C8_strip_remainder_or_empty "qt-v0-Acme-" "qt-v0-Acme-Tool-x").1 (by decide),
   (C8_strip_remainder_or_empty "qt-v0-Acme-" "zzz").2.1 (by decide)⟩

/-- Claim C10 counterexample: the claim says `remove(key)` leaves unchanged
every stored entry whose physical key is not a strict extension of
`prefix[0]`.  With `key = ""` the unconditional first collected key is
`prefix[0]` itself, so `remove("")` deletes an entry whose physical key
equals `prefix[0]` exactly, which is not a strict extension of it. -/
theorem C10_counterexample_remove_empty_key :
    lsRemove (lsConstruct .UserScope "Org" "App") [("qt-v0-Org-App-", "v")] "" = [] := by
  decide

/-- Claim C10 (amended): `clear()` leaves unchanged every stored entry whose
physical key is not a strict extension of the first prefix (including an
entry equal to the first prefix exactly); `remove(key)` leaves unchanged
every such entry except the one whose physical key equals
`prefix[0] + key`, which coincides with `prefix[0]` itself when `key` is
empty. -/
theorem C10_frame_non_extensions_survive :
    ∀ (b : LSBackend) (st : Store) (key : String) (e : String × String),
      e ∈ st → isStrictExtension (b.keyPrefixes.headD "") e.1 = false →
      e ∈ lsClear b st ∧
        (e.1 ≠ b.keyPrefixes.headD "" ++ key → e ∈ lsRemove b st key) := by
  intro b st key e he hext
  have hemp : (keyNameFromPrefixedStorageName (b.keyPrefixes.headD "") e.1).data.isEmpty
      = true := by
    rw [keyName_isEmpty_eq, hext]
    rfl
  constructor
  · exact (mem_lsClear_iff b st e).mpr ⟨he, hemp⟩
  · intro hne
    refine (mem_lsRemove_iff b st key e).mpr ⟨he, ?_⟩
    rintro (h1 | ⟨h2, _⟩)
    · exact hne h1
    · rw [hemp] at h2
      cases h2

/-- Witness for the amended C10 theorem: an entry under a foreign key
survives both `clear` and `remove`. -/
theorem C10_frame_non_extensions_survive_witness :
    ("other", "v") ∈ lsClear (lsConstruct .UserScope "Org" "App") [("other", "v")] ∧
      ("other", "v") ∈ lsRemove (lsConstruct .UserScope "Org" "App") [("other", "v")] "x" :=
  have h := C10_frame_non_extensions_survive (lsConstruct .UserScope "Org" "App")
    [("other", "v")] "x" ("other", "v") (by decide) (by decide)
  ⟨h.1, h.2 (by decide)⟩

end QtWasmSettings
